import Mathlib

/-!
# PMP checker (`pmp_checker.c`)

A shallow embedding of the region decoding and access evaluation of
`pmp_checker.c`, with theorems about it.

Machine integers are natural numbers; `uint32_t` arithmetic that can leave the
32-bit range is reduced modulo `2 ^ 32` where the C code does so.  The two
global arrays `config_array` and `address_array` are functions from the index
to the stored value.  Text written by `printf` is a list of `Line` values, and
the last line written by `pmp_check` is its `Verdict`.  A file is the list of
its characters; the library call `fgets` is modelled on it, and the results of
`sscanf`, `strtoul` and `fopen` are parameters of `read_config_file` and `main`,
as is the content of the uninitialised variable `value`.
-/

namespace PmpChecker

/-- The `MAX_LINES` constant: the number of entries of both arrays. -/
def MAX_LINES : Nat := 64

/-- Bitwise complement of a `uint32_t` value (the C operator `~`). -/
def not32 (x : Nat) : Nat := 0xFFFFFFFF ^^^ x

/-- The x86 behaviour of a 32-bit shift whose count is 32 or more: the
processor keeps the low five bits of the count. -/
def x86_wide_shift (s : Nat) : Nat := 2 ^ (s % 32)

/-- The C expression `1 << s` on a 32-bit `int`, stored into a `uint32_t`.
For `s < 32` the stored value is `2 ^ s` (for `s = 31` the `int` is `INT_MIN`,
whose conversion to `uint32_t` is `2 ^ 31`).  For `s ≥ 32` the C standard leaves
the result undefined; the value the platform produces is the parameter `wide`,
truncated to 32 bits. -/
def shl_one (wide : Nat → Nat) (s : Nat) : Nat :=
  if s < 32 then 2 ^ s else wide s % 2 ^ 32

/-- The loop `while (temp & 1) { count++; temp >>= 1; }` of
`compute_napot_range`; the result is the final value of `count`. -/
def count_loop (temp count : Nat) : Nat :=
  if temp &&& 1 ≠ 0 then count_loop (temp >>> 1) (count + 1) else count
termination_by temp
decreasing_by
  rename_i h
  rw [Nat.and_one_is_mod] at h
  rw [Nat.shiftRight_eq_div_pow]
  omega

/-- The function `compute_napot_range`: the pair `(*base, *limit)` written
through the two out-pointers. -/
def compute_napot_range (wide : Nat → Nat) (addr : Nat) : Nat × Nat :=
  if addr &&& 1 = 0 then
    (addr, (addr + 4) % 2 ^ 32)
  else
    let count := count_loop addr 0
    let size := shl_one wide (count + 2)
    let base := addr &&& not32 ((size + 2 ^ 32 - 1) % 2 ^ 32)
    (base, (base + size) % 2 ^ 32)

/-- One line of the per-region text printed by `pmp_check`. -/
inductive Line where
  /-- The line `Region %d: A-Field = %d, Config = 0x%X, Address = 0x%X`. -/
  | header (j A config region_addr : Nat)
  /-- The line `Region %d: PMP Disabled`. -/
  | disabled (j : Nat)
  /-- The line `Region %d: NAPOT Mode, Base = 0x%X, Limit = 0x%X`. -/
  | napot (j base limit : Nat)
  /-- The line `Region %d: TOR Mode, Base = 0x%X, Limit = 0x%X`. -/
  | tor (j base limit : Nat)
  /-- The line `Region %d: NA4 Mode, Base = 0x%X, Limit = 0x%X`. -/
  | na4 (j base limit : Nat)
  deriving DecidableEq, Repr

/-- The last line printed by `pmp_check`. -/
inductive Verdict where
  /-- The line `Access Granted: Address 0x%X in region %d`. -/
  | Granted (region_index : Nat)
  /-- The line `Access Fault: Address 0x%X in region %d`. -/
  | Fault (region_index : Nat)
  /-- The line `Access Fault: Address 0x%X (No PMP region found)`. -/
  | FaultUnmapped
  deriving DecidableEq, Repr

/-- What one call of `pmp_check` prints: the per-region lines in order, then
the verdict line. -/
structure Run where
  trace : List Line
  verdict : Verdict
  deriving DecidableEq, Repr

/-- The `A` field of a config byte: `(config >> 3) & 3`. -/
def a_field (config : Nat) : Nat := (config >>> 3) &&& 3

/-- The `(base, limit)` pair that the body of the loop of `pmp_check` computes
for entry `j` once `A` is known to be nonzero (lines 87 to 104). -/
def region_range (wide : Nat → Nat) (config_array address_array : Nat → Nat)
    (j : Nat) : Nat × Nat :=
  let region_addr := address_array j
  let A := a_field (config_array j)
  if A = 3 then
    compute_napot_range wide region_addr
  else if A = 1 then
    ((if j = 0 then 0 else address_array (j - 1)), region_addr)
  else if A = 2 then
    (region_addr, (region_addr + 4) % 2 ^ 32)
  else
    (0, 0)

/-- The mode line printed for entry `j` once `A` is known to be nonzero. -/
def mode_line (A j : Nat) (r : Nat × Nat) : List Line :=
  if A = 3 then [Line.napot j r.1 r.2]
  else if A = 1 then [Line.tor j r.1 r.2]
  else if A = 2 then [Line.na4 j r.1 r.2]
  else []

/-- The test of line 108:
`(operation == 'R' && R) || (operation == 'W' && W) || (operation == 'X' && X)`. -/
def permitted (config : Nat) (operation : Char) : Bool :=
  let R := config &&& 1
  let W := (config >>> 1) &&& 1
  let X := (config >>> 2) &&& 1
  (operation == 'R' && R != 0) || (operation == 'W' && W != 0) ||
    (operation == 'X' && X != 0)

/-- The `for` loop of `pmp_check` from index `j` on, with `n` iterations left
(`n = MAX_LINES - j`). -/
def pmp_check_loop (wide : Nat → Nat) (config_array address_array : Nat → Nat)
    (addr : Nat) (operation : Char) : Nat → Nat → Run
  | 0, _ => ⟨[], Verdict.FaultUnmapped⟩
  | n + 1, j =>
    let region_addr := address_array j
    let config := config_array j
    let A := a_field config
    let head := Line.header j A config region_addr
    if A = 0 then
      let rest := pmp_check_loop wide config_array address_array addr operation n (j + 1)
      ⟨head :: Line.disabled j :: rest.trace, rest.verdict⟩
    else
      let r := region_range wide config_array address_array j
      let lines := head :: mode_line A j r
      if r.1 ≤ addr ∧ addr < r.2 then
        if permitted config operation then
          ⟨lines, Verdict.Granted j⟩
        else
          ⟨lines, Verdict.Fault j⟩
      else
        let rest := pmp_check_loop wide config_array address_array addr operation n (j + 1)
        ⟨lines ++ rest.trace, rest.verdict⟩

/-- The function `pmp_check`. -/
def pmp_check (wide : Nat → Nat) (config_array address_array : Nat → Nat)
    (addr : Nat) (operation : Char) : Run :=
  pmp_check_loop wide config_array address_array addr operation MAX_LINES 0

/-- Entry `j` is enabled and its range contains `addr`: the conditions of
lines 82 and 107 under which the scan stops at `j`. -/
def region_hit (wide : Nat → Nat) (config_array address_array : Nat → Nat)
    (addr j : Nat) : Prop :=
  a_field (config_array j) ≠ 0 ∧
    (region_range wide config_array address_array j).1 ≤ addr ∧
    addr < (region_range wide config_array address_array j).2

instance (wide : Nat → Nat) (config_array address_array : Nat → Nat) (addr j : Nat) :
    Decidable (region_hit wide config_array address_array addr j) :=
  inferInstanceAs (Decidable (_ ∧ _ ∧ _))

/-! ## Concrete tables -/

/-- Two overlapping NA4 entries at `0x100`: entry 0 has no permission bit,
entry 1 has all three; every other entry is `Off`. -/
def overlap_config : Nat → Nat :=
  fun j => if j = 0 then 0x10 else if j = 1 then 0x17 else 0

/-- The address words of the overlapping table. -/
def overlap_address : Nat → Nat := fun _ => 0x100

/-- A table whose 64 entries are all `Off` (bits 3 and 4 clear) with every other
config bit set. -/
def all_off_config : Nat → Nat := fun _ => 0xE7

/-- The address words of the all-`Off` table. -/
def all_off_address : Nat → Nat := fun _ => 0x8000

/-- Entry 0 is `Off`, entry 1 is TOR with only the R bit; the rest is `Off`. -/
def read_only_config : Nat → Nat := fun j => if j = 1 then 0x09 else 0

/-- Address words `0x8000`, `0x9000`: entry 1 covers `[0x8000, 0x9000)`. -/
def read_only_address : Nat → Nat :=
  fun j => if j = 0 then 0x8000 else if j = 1 then 0x9000 else 0

/-- Entry 0 is TOR, the rest is `Off`. -/
def tor_first_config : Nat → Nat := fun j => if j = 0 then 0x08 else 0

/-- Entry 0 is `Off`, entry 1 is TOR, the rest is `Off`. -/
def tor_second_config : Nat → Nat := fun j => if j = 1 then 0x08 else 0

/-- Address words `0x1000`, `0x2000`, then zeros. -/
def tor_address : Nat → Nat :=
  fun j => if j = 0 then 0x1000 else if j = 1 then 0x2000 else 0

/-- The table of the end-to-end scenario: entry 0 has config byte `0b00001111`,
every other config byte is 0. -/
def scenario_config : Nat → Nat := fun j => if j = 0 then 0x0F else 0

/-- The address words of the end-to-end scenario. -/
def scenario_address : Nat → Nat := fun j => if j = 0 then 0x80000007 else 0

/-- As `scenario_config`, with the mode bits of entry 0 set to `11`. -/
def napot_scenario_config : Nat → Nat := fun j => if j = 0 then 0x1F else 0

/-- The region number printed at the start of a line. -/
def Line.index : Line → Nat
  | Line.header j _ _ _ => j
  | Line.disabled j => j
  | Line.napot j _ _ => j
  | Line.tor j _ _ => j
  | Line.na4 j _ _ => j

/-- Whether a line is the first line printed for an entry (line 79). -/
def Line.is_header : Line → Bool
  | Line.header _ _ _ _ => true
  | _ => false

/-- Entry 2 is NA4 with all permission bits; every other entry is `Off` with
its reserved bits set. -/
def na4_only_config : Nat → Nat := fun j => if j = 2 then 0x17 else 0xE0

/-- Every address word is `0x2000`: the NA4 entry covers `[0x2000, 0x2004)`. -/
def na4_only_address : Nat → Nat := fun _ => 0x2000

/-- Every address word is `0xFFFFFFFC`. -/
def na4_top_address : Nat → Nat := fun _ => 0xFFFFFFFC

/-- The overlapping table with bits 5 to 7 of every config byte set. -/
def overlap_config_reserved : Nat → Nat :=
  fun j => if j = 0 then 0xF0 else if j = 1 then 0xF7 else 0xE0

/-- A table that agrees with the overlapping table at index 0 only: every later
entry is NAPOT with all permission bits. -/
def overlap_config_tail : Nat → Nat := fun j => if j = 0 then 0x10 else 0x1F

/-- Address word `0x100` at index 0 and `0xFFFFFFFF` after it. -/
def overlap_address_tail : Nat → Nat := fun j => if j = 0 then 0x100 else 0xFFFFFFFF

/-- Entry 1 is TOR with all permission bits, entry 2 is NA4 with all permission
bits, the rest is `Off`. -/
def tor_empty_config : Nat → Nat :=
  fun j => if j = 1 then 0x0F else if j = 2 then 0x17 else 0

/-- Address words `0x2000`, `0x1000`, `0x1800`: the TOR entry 1 has its base
`0x2000` above its limit `0x1000`. -/
def tor_empty_address : Nat → Nat :=
  fun j => if j = 0 then 0x2000 else if j = 1 then 0x1000 else if j = 2 then 0x1800 else 0

/-! ## Ingestion: `read_config_file` and `main` -/

/-- The loop counts the trailing 1 bits: with bits `0 .. n - 1` of `temp` set and
bit `n` clear it adds `n` to `count`. -/
theorem count_loop_spec (n : Nat) : ∀ (temp count : Nat),
    (∀ k, k < n → temp.testBit k = true) → temp.testBit n = false →
    count_loop temp count = count + n := by
  induction n with
  | zero =>
    intro temp count _ h0
    rw [count_loop]
    have : temp &&& 1 = 0 := by
      rw [Nat.and_one_is_mod]
      rw [Nat.testBit_zero] at h0
      simpa using h0
    simp [this]
  | succ n ih =>
    intro temp count hk hn
    rw [count_loop]
    have h0 := hk 0 (Nat.succ_pos n)
    have h1 : temp &&& 1 ≠ 0 := by
      rw [Nat.and_one_is_mod]
      rw [Nat.testBit_zero] at h0
      simpa using h0
    rw [if_pos h1, ih (temp >>> 1) (count + 1)]
    · omega
    · intro k hkn
      rw [Nat.testBit_shiftRight]
      have := hk (k + 1) (by omega)
      rwa [Nat.add_comm] 
    · rw [Nat.testBit_shiftRight]
      rwa [Nat.add_comm]

/-- Masking a 32-bit word with `~(2^k - 1)` aligns it down to a multiple of
`2^k`. -/
theorem and_not32_mask (addr k : Nat) (ha : addr < 2 ^ 32) (hk : k ≤ 32) :
    addr &&& not32 (2 ^ k - 1) = addr / 2 ^ k * 2 ^ k := by
  apply Nat.eq_of_testBit_eq
  intro i
  rw [← Nat.shiftRight_eq_div_pow, ← Nat.shiftLeft_eq]
  simp only [not32, Nat.testBit_and, Nat.testBit_xor, Nat.testBit_two_pow_sub_one,
    Nat.testBit_shiftLeft, Nat.testBit_shiftRight]
  have h32 : (0xFFFFFFFF : Nat) = 2 ^ 32 - 1 := by norm_num
  rw [h32, Nat.testBit_two_pow_sub_one]
  by_cases hi : i < 32
  · by_cases hik : i < k
    · simp [hi, hik]
    · have : k + (i - k) = i := by omega
      simp [hi, hik, this]
      omega
  · have hf : addr.testBit i = false := by
      apply Nat.testBit_lt_two_pow
      calc addr < 2 ^ 32 := ha
        _ ≤ 2 ^ i := Nat.pow_le_pow_right (by norm_num) (by omega)
    have : k + (i - k) = i := by omega
    simp [hf, this]

/-- A disabled entry is skipped. -/
theorem loop_step_disabled (wide : Nat → Nat) (cfg adr : Nat → Nat) (a : Nat) (op : Char)
    (n j : Nat) (hA : a_field (cfg j) = 0) :
    (pmp_check_loop wide cfg adr a op (n + 1) j).verdict =
      (pmp_check_loop wide cfg adr a op n (j + 1)).verdict := by
  simp [pmp_check_loop, hA]

/-- An enabled entry whose range does not contain the address is passed over. -/
theorem loop_step_outside (wide : Nat → Nat) (cfg adr : Nat → Nat) (a : Nat) (op : Char)
    (n j : Nat) (hA : a_field (cfg j) ≠ 0)
    (hr : ¬ ((region_range wide cfg adr j).1 ≤ a ∧ a < (region_range wide cfg adr j).2)) :
    (pmp_check_loop wide cfg adr a op (n + 1) j).verdict =
      (pmp_check_loop wide cfg adr a op n (j + 1)).verdict := by
  simp only [pmp_check_loop, if_neg hA, if_neg hr]

/-- An entry that is not hit leaves the verdict to the rest of the scan. -/
theorem loop_step_miss (wide : Nat → Nat) (cfg adr : Nat → Nat) (a : Nat) (op : Char)
    (n j : Nat) (h : ¬ region_hit wide cfg adr a j) :
    (pmp_check_loop wide cfg adr a op (n + 1) j).verdict =
      (pmp_check_loop wide cfg adr a op n (j + 1)).verdict := by
  by_cases hA : a_field (cfg j) = 0
  · exact loop_step_disabled wide cfg adr a op n j hA
  · apply loop_step_outside wide cfg adr a op n j hA
    intro hr
    exact h ⟨hA, hr⟩

/-- An entry that is hit decides the verdict. -/
theorem loop_step_hit (wide : Nat → Nat) (cfg adr : Nat → Nat) (a : Nat) (op : Char)
    (n j : Nat) (h : region_hit wide cfg adr a j) :
    (pmp_check_loop wide cfg adr a op (n + 1) j).verdict =
      if permitted (cfg j) op then Verdict.Granted j else Verdict.Fault j := by
  obtain ⟨hA, hr⟩ := h
  simp only [pmp_check_loop, if_neg hA, if_pos hr]
  split <;> rfl

/-- A scan over entries none of which is hit ends with `FaultUnmapped`. -/
theorem loop_verdict_miss (wide : Nat → Nat) (cfg adr : Nat → Nat) (a : Nat) (op : Char) :
    ∀ (n j : Nat), (∀ k, j ≤ k → k < j + n → ¬ region_hit wide cfg adr a k) →
      (pmp_check_loop wide cfg adr a op n j).verdict = Verdict.FaultUnmapped := by
  intro n
  induction n with
  | zero => intro j _; rfl
  | succ n ih =>
    intro j h
    rw [loop_step_miss wide cfg adr a op n j (h j (Nat.le_refl j) (by omega))]
    apply ih
    intro k h1 h2
    exact h k (by omega) (by omega)

/-- The verdict of a scan is decided at the first entry that is hit. -/
theorem loop_verdict_hit (wide : Nat → Nat) (cfg adr : Nat → Nat) (a : Nat) (op : Char) :
    ∀ (m n j : Nat), m < n → region_hit wide cfg adr a (j + m) →
      (∀ k, j ≤ k → k < j + m → ¬ region_hit wide cfg adr a k) →
      (pmp_check_loop wide cfg adr a op n j).verdict =
        if permitted (cfg (j + m)) op then Verdict.Granted (j + m)
        else Verdict.Fault (j + m) := by
  intro m
  induction m with
  | zero =>
    intro n j hn hit _
    obtain ⟨n, rfl⟩ : ∃ n', n = n' + 1 := ⟨n - 1, by omega⟩
    exact loop_step_hit wide cfg adr a op n j hit
  | succ m ih =>
    intro n j hn hit hmiss
    obtain ⟨n, rfl⟩ : ∃ n', n = n' + 1 := ⟨n - 1, by omega⟩
    rw [loop_step_miss wide cfg adr a op n j (hmiss j (Nat.le_refl j) (by omega))]
    have e : j + (m + 1) = j + 1 + m := by omega
    rw [e] at hit ⊢
    apply ih n (j + 1) (by omega) hit
    intro k h1 h2
    exact hmiss k (by omega) (by omega)

/-- The C test `(c >> k) & 1` reads bit `k` of `c`. -/
theorem shift_and_one_eq_testBit (c k : Nat) : ((c >>> k) &&& 1 != 0) = c.testBit k := by
  simp [Nat.testBit, Nat.and_comm]

/-- For `R` the permission test reads bit 0. -/
theorem permitted_read (c : Nat) : permitted c 'R' = c.testBit 0 := by
  have h0 : (c &&& 1 != 0) = c.testBit 0 := by
    simpa using shift_and_one_eq_testBit c 0
  have e1 : ('R' == 'W') = false := by decide
  have e2 : ('R' == 'X') = false := by decide
  simp only [permitted, h0, e1, e2, beq_self_eq_true, Bool.true_and, Bool.false_and,
    Bool.or_false]

/-- For `W` the permission test reads bit 1. -/
theorem permitted_write (c : Nat) : permitted c 'W' = c.testBit 1 := by
  have e1 : ('W' == 'R') = false := by decide
  have e2 : ('W' == 'X') = false := by decide
  simp only [permitted, shift_and_one_eq_testBit, e1, e2, beq_self_eq_true, Bool.true_and,
    Bool.false_and, Bool.or_false, Bool.false_or]

/-- For `X` the permission test reads bit 2. -/
theorem permitted_execute (c : Nat) : permitted c 'X' = c.testBit 2 := by
  have e1 : ('X' == 'R') = false := by decide
  have e2 : ('X' == 'W') = false := by decide
  simp only [permitted, shift_and_one_eq_testBit, e1, e2, beq_self_eq_true, Bool.true_and,
    Bool.false_and, Bool.false_or]

/-- The permission test reads the bit of the requested operation. -/
theorem permitted_eq_testBit (c : Nat) (op : Char) (hop : op = 'R' ∨ op = 'W' ∨ op = 'X') :
    permitted c op = c.testBit (if op = 'R' then 0 else if op = 'W' then 1 else 2) := by
  rcases hop with h | h | h <;> subst h
  · rw [permitted_read, if_pos rfl]
  · rw [permitted_write, if_neg (by decide), if_pos rfl]
  · rw [permitted_execute, if_neg (by decide), if_neg (by decide)]

/-- The even-address path of `compute_napot_range`. -/
theorem compute_napot_range_even (wide : Nat → Nat) (addr : Nat) (heven : addr &&& 1 = 0) :
    compute_napot_range wide addr = (addr, (addr + 4) % 2 ^ 32) := by
  simp [compute_napot_range, heven]

/-- The odd-address path of `compute_napot_range` for a word with `count`
trailing 1 bits, when the shift `1 << (count + 2)` is defined. -/
theorem compute_napot_range_odd (wide : Nat → Nat) (addr count : Nat) (hpos : 1 ≤ count)
    (hc : count + 2 < 32) (hones : ∀ k, k < count → addr.testBit k = true)
    (hzero : addr.testBit count = false) :
    compute_napot_range wide addr =
      (addr &&& not32 (2 ^ (count + 2) - 1),
        ((addr &&& not32 (2 ^ (count + 2) - 1)) + 2 ^ (count + 2)) % 2 ^ 32) := by
  have hlsb : ¬ (addr &&& 1 = 0) := by
    have h0 := hones 0 (by omega)
    rw [Nat.testBit_zero] at h0
    rw [Nat.and_one_is_mod]
    simpa using h0
  have hcount : count_loop addr 0 = count := by
    rw [count_loop_spec count addr 0 hones hzero, Nat.zero_add]
  have hlt : 2 ^ (count + 2) < 2 ^ 32 := Nat.pow_lt_pow_right (by norm_num) hc
  have hpos2 : 0 < 2 ^ (count + 2) := Nat.two_pow_pos _
  have hm : (2 ^ (count + 2) + 2 ^ 32 - 1) % 2 ^ 32 = 2 ^ (count + 2) - 1 := by
    have e : 2 ^ (count + 2) + 2 ^ 32 - 1 = (2 ^ (count + 2) - 1) + 2 ^ 32 := by omega
    rw [e, Nat.add_mod_right, Nat.mod_eq_of_lt (by omega)]
  simp only [compute_napot_range, if_neg hlsb, hcount, shl_one, if_pos hc, hm]

/-- A word ending in binary `01` has exactly one trailing 1 bit. -/
theorem testBit_of_mod_four (addr : Nat) (h : addr % 4 = 1) :
    (∀ k, k < 1 → addr.testBit k = true) ∧ addr.testBit 1 = false := by
  constructor
  · intro k hk
    obtain rfl : k = 0 := by omega
    rw [Nat.testBit_to_div_mod]
    simp
    omega
  · rw [Nat.testBit_to_div_mod]
    simp
    omega

/-- A word ending in binary `011` has exactly two trailing 1 bits. -/
theorem testBit_of_mod_eight (addr : Nat) (h : addr % 8 = 3) :
    (∀ k, k < 2 → addr.testBit k = true) ∧ addr.testBit 2 = false := by
  constructor
  · intro k hk
    rw [Nat.testBit_to_div_mod]
    have : k = 0 ∨ k = 1 := by omega
    rcases this with rfl | rfl
    · simp
      omega
    · simp
      omega
  · rw [Nat.testBit_to_div_mod]
    simp
    omega

/-- The aligned base of a 32-bit word plus the region size is at most `2^32`. -/
theorem napot_base_add_size_le (addr k : Nat) (ha : addr < 2 ^ 32) (hk : k ≤ 32) :
    addr / 2 ^ k * 2 ^ k + 2 ^ k ≤ 2 ^ 32 := by
  have hsplit : (2 : Nat) ^ 32 = 2 ^ (32 - k) * 2 ^ k := by
    rw [← Nat.pow_add]
    congr 1
    omega
  have hq : addr / 2 ^ k < 2 ^ (32 - k) := by
    apply Nat.div_lt_of_lt_mul
    rw [Nat.mul_comm, ← hsplit]
    exact ha
  calc addr / 2 ^ k * 2 ^ k + 2 ^ k = (addr / 2 ^ k + 1) * 2 ^ k := by ring
    _ ≤ 2 ^ (32 - k) * 2 ^ k := Nat.mul_le_mul_right _ hq
    _ = 2 ^ 32 := hsplit.symm

/-- When no entry before `j + m` is hit, the scan reaches entry `j + m` and prints
its mode line. -/
theorem loop_trace_reach (wide : Nat → Nat) (cfg adr : Nat → Nat) (a : Nat) (op : Char) :
    ∀ (m n j : Nat), m < n →
      (∀ k, j ≤ k → k < j + m → ¬ region_hit wide cfg adr a k) →
      a_field (cfg (j + m)) ≠ 0 →
      ∀ l, l ∈ mode_line (a_field (cfg (j + m))) (j + m) (region_range wide cfg adr (j + m)) →
        l ∈ (pmp_check_loop wide cfg adr a op n j).trace := by
  intro m
  induction m with
  | zero =>
    intro n j hn _ hA l hl
    obtain ⟨n, rfl⟩ : ∃ n', n = n' + 1 := ⟨n - 1, by omega⟩
    rw [Nat.add_zero] at hA hl
    simp only [pmp_check_loop, if_neg hA]
    split
    · split <;> exact List.mem_cons_of_mem _ hl
    · exact List.mem_cons_of_mem _ (List.mem_append_left _ hl)
  | succ m ih =>
    intro n j hn hmiss hA l hl
    obtain ⟨n, rfl⟩ : ∃ n', n = n' + 1 := ⟨n - 1, by omega⟩
    have e : j + (m + 1) = j + 1 + m := by omega
    rw [e] at hA hl
    have hrest := ih n (j + 1) (by omega)
      (fun k h1 h2 => hmiss k (by omega) (by omega)) hA l hl
    have hj : ¬ region_hit wide cfg adr a j := hmiss j (Nat.le_refl j) (by omega)
    by_cases hA0 : a_field (cfg j) = 0
    · simp only [pmp_check_loop, if_pos hA0]
      exact List.mem_cons_of_mem _ (List.mem_cons_of_mem _ hrest)
    · have hr : ¬ ((region_range wide cfg adr j).1 ≤ a ∧ a < (region_range wide cfg adr j).2) :=
        fun hr => hj ⟨hA0, hr⟩
      simp only [pmp_check_loop, if_neg hA0, if_neg hr]
      exact List.mem_cons_of_mem _ (List.mem_append_right _ hrest)

/-- When the verdict of a scan names an index `i`, entry `i` is inside the
scanned range, it is hit, no scanned entry before it is hit, and the verdict is
the one its permission test gives. -/
theorem loop_verdict_inv (wide : Nat → Nat) (cfg adr : Nat → Nat) (a : Nat) (op : Char) :
    ∀ (n j i : Nat),
      ((pmp_check_loop wide cfg adr a op n j).verdict = Verdict.Granted i ∨
        (pmp_check_loop wide cfg adr a op n j).verdict = Verdict.Fault i) →
      j ≤ i ∧ i < j + n ∧ region_hit wide cfg adr a i ∧
      (∀ k, j ≤ k → k < i → ¬ region_hit wide cfg adr a k) ∧
      (pmp_check_loop wide cfg adr a op n j).verdict =
        if permitted (cfg i) op then Verdict.Granted i else Verdict.Fault i := by
  intro n
  induction n with
  | zero =>
    intro j i h
    rcases h with h | h <;> simp [pmp_check_loop] at h
  | succ n ih =>
    intro j i h
    by_cases hit : region_hit wide cfg adr a j
    · have hv := loop_step_hit wide cfg adr a op n j hit
      have hij : i = j := by
        rw [hv] at h
        by_cases hp : permitted (cfg j) op = true
        · simp [hp] at h
          exact h.symm
        · simp [hp] at h
          exact h.symm
      subst hij
      exact ⟨Nat.le_refl _, by omega, hit, fun k h1 h2 => absurd h1 (by omega), hv⟩
    · have hv := loop_step_miss wide cfg adr a op n j hit
      rw [hv] at h ⊢
      obtain ⟨h1, h2, h3, h4, h5⟩ := ih (j + 1) i h
      refine ⟨by omega, by omega, h3, ?_, h5⟩
      intro k hk1 hk2
      by_cases hkj : k = j
      · subst hkj; exact hit
      · exact h4 k (by omega) hk2

/-- The verdict of a scan is `FaultUnmapped` or names a scanned index. -/
theorem loop_verdict_cases (wide : Nat → Nat) (cfg adr : Nat → Nat) (a : Nat) (op : Char) :
    ∀ (n j : Nat),
      (pmp_check_loop wide cfg adr a op n j).verdict = Verdict.FaultUnmapped ∨
      ∃ i, j ≤ i ∧ i < j + n ∧
        ((pmp_check_loop wide cfg adr a op n j).verdict = Verdict.Granted i ∨
          (pmp_check_loop wide cfg adr a op n j).verdict = Verdict.Fault i) := by
  intro n
  induction n with
  | zero => intro j; left; rfl
  | succ n ih =>
    intro j
    by_cases hit : region_hit wide cfg adr a j
    · right
      refine ⟨j, Nat.le_refl _, by omega, ?_⟩
      rw [loop_step_hit wide cfg adr a op n j hit]
      by_cases hp : permitted (cfg j) op = true
      · left; simp [hp]
      · right; simp [hp]
    · rw [loop_step_miss wide cfg adr a op n j hit]
      rcases ih (j + 1) with h | ⟨i, h1, h2, h3⟩
      · left; exact h
      · right; exact ⟨i, by omega, by omega, h3⟩

/-- In a table whose only enabled entry is `j`, the verdict is decided by entry
`j` alone: it names `j` when `j` is hit and is `FaultUnmapped` otherwise. -/
theorem only_entry_verdict (wide : Nat → Nat) (cfg adr : Nat → Nat) (a : Nat) (op : Char)
    (j : Nat) (hj : j < 64) (honly : ∀ k, k < 64 → k ≠ j → a_field (cfg k) = 0) :
    (region_hit wide cfg adr a j →
      (pmp_check wide cfg adr a op).verdict =
        if permitted (cfg j) op then Verdict.Granted j else Verdict.Fault j) ∧
    (¬ region_hit wide cfg adr a j →
      (pmp_check wide cfg adr a op).verdict = Verdict.FaultUnmapped) := by
  constructor
  · intro hit
    have h := loop_verdict_hit wide cfg adr a op j MAX_LINES 0 hj (by simpa using hit)
      (by
        intro k _ hk hitk
        exact hitk.1 (honly k (by omega) (by omega)))
    simpa [pmp_check] using h
  · intro hmiss
    apply loop_verdict_miss
    intro k _ hk hitk
    by_cases hkj : k = j
    · subst hkj; exact hmiss hitk
    · exact hitk.1 (honly k (by simpa [MAX_LINES] using hk) hkj)

/-- A verdict given by a permission test is never `FaultUnmapped`. -/
theorem decided_ne_unmapped (b : Bool) (j : Nat) :
    (if b then Verdict.Granted j else Verdict.Fault j) ≠ Verdict.FaultUnmapped := by
  cases b <;> simp

/-- A verdict given by a permission test names the entry. -/
theorem decided_names (b : Bool) (j : Nat) :
    (if b then Verdict.Granted j else Verdict.Fault j) = Verdict.Granted j ∨
    (if b then Verdict.Granted j else Verdict.Fault j) = Verdict.Fault j := by
  cases b <;> simp

/-- The `A` field reads bits 3 and 4 only. -/
theorem a_field_mod_32 (c : Nat) : a_field (c % 32) = a_field c := by
  have h3 : (3 : Nat) = 2 ^ 2 - 1 := by norm_num
  unfold a_field
  rw [h3, Nat.and_pow_two_sub_one_eq_mod, Nat.and_pow_two_sub_one_eq_mod,
    Nat.shiftRight_eq_div_pow, Nat.shiftRight_eq_div_pow]
  norm_num
  omega

/-- The permission test reads bits 0, 1 and 2 only. -/
theorem permitted_mod_32 (c : Nat) (op : Char) : permitted (c % 32) op = permitted c op := by
  have h0 : c % 32 &&& 1 = c &&& 1 := by
    rw [Nat.and_one_is_mod, Nat.and_one_is_mod]
    omega
  have h1 : (c % 32) >>> 1 &&& 1 = c >>> 1 &&& 1 := by
    rw [Nat.and_one_is_mod, Nat.and_one_is_mod, Nat.shiftRight_eq_div_pow,
      Nat.shiftRight_eq_div_pow]
    norm_num
    omega
  have h2 : (c % 32) >>> 2 &&& 1 = c >>> 2 &&& 1 := by
    rw [Nat.and_one_is_mod, Nat.and_one_is_mod, Nat.shiftRight_eq_div_pow,
      Nat.shiftRight_eq_div_pow]
    norm_num
    omega
  simp only [permitted, h0, h1, h2]

/-- The range of an entry depends on the config bytes through the `A` field of
that entry only. -/
theorem region_range_congr (wide : Nat → Nat) (cfg1 cfg2 adr : Nat → Nat) (j : Nat)
    (h : a_field (cfg1 j) = a_field (cfg2 j)) :
    region_range wide cfg1 adr j = region_range wide cfg2 adr j := by
  simp only [region_range, h]

/-- Two scans over tables with the same address words, whose config bytes have
the same `A` fields and the same permission tests, end with the same verdict. -/
theorem loop_verdict_congr (wide : Nat → Nat) (cfg1 cfg2 adr : Nat → Nat) (a : Nat)
    (op : Char) :
    ∀ (n j : Nat),
      (∀ k, j ≤ k → k < j + n → a_field (cfg1 k) = a_field (cfg2 k) ∧
        permitted (cfg1 k) op = permitted (cfg2 k) op) →
      (pmp_check_loop wide cfg1 adr a op n j).verdict =
        (pmp_check_loop wide cfg2 adr a op n j).verdict := by
  intro n
  induction n with
  | zero => intro j _; rfl
  | succ n ih =>
    intro j h
    obtain ⟨hA, hP⟩ := h j (Nat.le_refl j) (by omega)
    have hR := region_range_congr wide cfg1 cfg2 adr j hA
    have hrest := ih (j + 1) (fun k h1 h2 => h k (by omega) (by omega))
    have hiff : region_hit wide cfg1 adr a j ↔ region_hit wide cfg2 adr a j := by
      simp only [region_hit, hA, hR]
    by_cases hit : region_hit wide cfg1 adr a j
    · rw [loop_step_hit wide cfg1 adr a op n j hit,
        loop_step_hit wide cfg2 adr a op n j (hiff.1 hit), hP]
    · rw [loop_step_miss wide cfg1 adr a op n j hit,
        loop_step_miss wide cfg2 adr a op n j (fun h => hit (hiff.2 h)), hrest]

/-- The loop of `compute_napot_range` adds at most `n` to `count` when `temp` is
below `2^n`. -/
theorem count_loop_le (n : Nat) : ∀ (temp count : Nat), temp < 2 ^ n →
    count_loop temp count ≤ count + n := by
  induction n with
  | zero =>
    intro temp count h
    have h0 : temp = 0 := by simpa using h
    subst h0
    rw [count_loop]
    simp
  | succ n ih =>
    intro temp count h
    rw [count_loop]
    split
    · have hlt : temp >>> 1 < 2 ^ n := by
        rw [Nat.shiftRight_eq_div_pow, Nat.pow_one]
        rw [Nat.pow_succ] at h
        omega
      have := ih (temp >>> 1) (count + 1) hlt
      omega
    · omega

/-- The mode line of an entry is not a header and carries the entry index. -/
theorem mode_line_mem (A j : Nat) (r : Nat × Nat) (l : Line) (hl : l ∈ mode_line A j r) :
    l.is_header = false ∧ l.index = j := by
  unfold mode_line at hl
  split at hl
  · simp at hl; subst hl; exact ⟨rfl, rfl⟩
  · split at hl
    · simp at hl; subst hl; exact ⟨rfl, rfl⟩
    · split at hl
      · simp at hl; subst hl; exact ⟨rfl, rfl⟩
      · simp at hl

/-- The mode line of an entry contains no header. -/
theorem mode_line_countP (A j : Nat) (r : Nat × Nat) :
    (mode_line A j r).countP Line.is_header = 0 := by
  rw [List.countP_eq_zero]
  intro l hl
  simp [(mode_line_mem A j r l hl).1]

/-- A scan with `n` iterations left prints at most `n` header lines. -/
theorem loop_headers_le (wide : Nat → Nat) (cfg adr : Nat → Nat) (a : Nat) (op : Char) :
    ∀ (n j : Nat),
      (pmp_check_loop wide cfg adr a op n j).trace.countP Line.is_header ≤ n := by
  intro n
  induction n with
  | zero => intro j; simp [pmp_check_loop]
  | succ n ih =>
    intro j
    have hrest := ih (j + 1)
    have hm := mode_line_countP (a_field (cfg j)) j (region_range wide cfg adr j)
    simp only [pmp_check_loop]
    split
    · simp [List.countP_cons, Line.is_header]
      omega
    · split
      · split <;> simp [List.countP_cons, Line.is_header, hm]
      · simp [List.countP_cons, List.countP_append, Line.is_header, hm]
        omega

/-- Every line printed by a scan from `j` with `n` iterations left carries an
index in `j .. j + n - 1`, and an index not above the one named by the verdict. -/
theorem loop_trace_index (wide : Nat → Nat) (cfg adr : Nat → Nat) (a : Nat) (op : Char) :
    ∀ (n j : Nat) (l : Line), l ∈ (pmp_check_loop wide cfg adr a op n j).trace →
      j ≤ l.index ∧ l.index < j + n ∧
      ∀ i, ((pmp_check_loop wide cfg adr a op n j).verdict = Verdict.Granted i ∨
          (pmp_check_loop wide cfg adr a op n j).verdict = Verdict.Fault i) →
        l.index ≤ i := by
  intro n
  induction n with
  | zero => intro j l hl; simp [pmp_check_loop] at hl
  | succ n ih =>
    intro j l hl
    by_cases hit : region_hit wide cfg adr a j
    · have hA := hit.1
      have hr := hit.2
      have hl2 : l = Line.header j (a_field (cfg j)) (cfg j) (adr j) ∨
          l ∈ mode_line (a_field (cfg j)) j (region_range wide cfg adr j) := by
        simp only [pmp_check_loop, if_neg hA, if_pos hr] at hl
        split at hl <;> simpa using hl
      have hidx : l.index = j := by
        rcases hl2 with h | h
        · subst h; rfl
        · exact (mode_line_mem _ _ _ _ h).2
      refine ⟨by omega, by omega, ?_⟩
      intro i hv
      have := (loop_verdict_inv wide cfg adr a op (n + 1) j i hv).1
      omega
    · have hv := loop_step_miss wide cfg adr a op n j hit
      have hl2 : l.index = j ∨ l ∈ (pmp_check_loop wide cfg adr a op n (j + 1)).trace := by
        by_cases hA : a_field (cfg j) = 0
        · simp only [pmp_check_loop, if_pos hA] at hl
          simp at hl
          rcases hl with h | h | h
          · left; subst h; rfl
          · left; subst h; rfl
          · right; exact h
        · have hr : ¬ ((region_range wide cfg adr j).1 ≤ a ∧
              a < (region_range wide cfg adr j).2) := fun hr => hit ⟨hA, hr⟩
          simp only [pmp_check_loop, if_neg hA, if_neg hr] at hl
          simp at hl
          rcases hl with h | h | h
          · left; subst h; rfl
          · left; exact (mode_line_mem _ _ _ _ h).2
          · right; exact h
      rcases hl2 with h | h
      · refine ⟨by omega, by omega, ?_⟩
        intro i hvi
        have := (loop_verdict_inv wide cfg adr a op (n + 1) j i hvi).1
        omega
      · obtain ⟨h1, h2, h3⟩ := ih (j + 1) l h
        refine ⟨by omega, by omega, ?_⟩
        intro i hvi
        rw [hv] at hvi
        exact h3 i hvi

/-- Skipping a prefix of entries none of which is hit leaves the verdict to the
scan of the remaining entries. -/
theorem loop_verdict_skip (wide : Nat → Nat) (cfg adr : Nat → Nat) (a : Nat) (op : Char) :
    ∀ (m n j : Nat), (∀ k, j ≤ k → k < j + m → ¬ region_hit wide cfg adr a k) →
      (pmp_check_loop wide cfg adr a op (m + n) j).verdict =
        (pmp_check_loop wide cfg adr a op n (j + m)).verdict := by
  intro m
  induction m with
  | zero => intro n j _; simp
  | succ m ih =>
    intro n j h
    have e : m + 1 + n = (m + n) + 1 := by omega
    have e2 : j + 1 + m = j + (m + 1) := by omega
    rw [e, loop_step_miss wide cfg adr a op (m + n) j (h j (Nat.le_refl j) (by omega)),
      ih n (j + 1) (fun k h1 h2 => h k (by omega) (by omega)), e2]

/-- When the verdict of a scan names `i`, a table that agrees with the scanned
one at every index up to `i` gives the same lines and the same verdict. -/
theorem loop_run_congr (wide : Nat → Nat) (cfg adr cfg2 adr2 : Nat → Nat) (a : Nat)
    (op : Char) :
    ∀ (n j i : Nat),
      ((pmp_check_loop wide cfg adr a op n j).verdict = Verdict.Granted i ∨
        (pmp_check_loop wide cfg adr a op n j).verdict = Verdict.Fault i) →
      (∀ k, k ≤ i → cfg2 k = cfg k ∧ adr2 k = adr k) →
      pmp_check_loop wide cfg2 adr2 a op n j = pmp_check_loop wide cfg adr a op n j := by
  intro n
  induction n with
  | zero => intro j i _ _; rfl
  | succ n ih =>
    intro j i hv hagree
    have hji := (loop_verdict_inv wide cfg adr a op (n + 1) j i hv).1
    obtain ⟨hc, ha⟩ := hagree j hji
    have hprev : adr2 (j - 1) = adr (j - 1) := (hagree (j - 1) (by omega)).2
    have hR : region_range wide cfg2 adr2 j = region_range wide cfg adr j := by
      simp only [region_range, hc, ha, hprev]
    by_cases hit : region_hit wide cfg adr a j
    · have hA := hit.1
      have hr := hit.2
      simp only [pmp_check_loop, hc, ha, hR, if_neg hA, if_pos hr]
    · have hrest : pmp_check_loop wide cfg2 adr2 a op n (j + 1)
          = pmp_check_loop wide cfg adr a op n (j + 1) := by
        apply ih (j + 1) i _ hagree
        rw [loop_step_miss wide cfg adr a op n j hit] at hv
        exact hv
      by_cases hA : a_field (cfg j) = 0
      · simp only [pmp_check_loop, hc, ha, if_pos hA, hrest]
      · have hr : ¬ ((region_range wide cfg adr j).1 ≤ a ∧
            a < (region_range wide cfg adr j).2) := fun hr => hit ⟨hA, hr⟩
        simp only [pmp_check_loop, hc, ha, hR, if_neg hA, if_neg hr, hrest]

/-- An operation character other than `R`, `W`, `X` fails the permission test. -/
theorem permitted_unknown (c : Nat) (op : Char) (hR : op ≠ 'R') (hW : op ≠ 'W')
    (hX : op ≠ 'X') : permitted c op = false := by
  simp [permitted, hR, hW, hX]

/-- Claim C1 (first match wins).  For an operation among `R`, `W`, `X`: when `i`
is the least index below 64 whose entry is enabled and whose resolved range
contains the target address, the verdict is `Granted i` if the permission bit of
the operation (bit 0 for `R`, bit 1 for `W`, bit 2 for `X`) is set in entry `i`
and `Fault i` if it is clear, whatever the entries after `i` are; when no index
below 64 is such, the verdict is `FaultUnmapped`. -/
theorem pmp_check_first_match (wide : Nat → Nat) (config_array address_array : Nat → Nat)
    (a : Nat) (op : Char) (hop : op = 'R' ∨ op = 'W' ∨ op = 'X') :
    (∀ i, i < 64 → region_hit wide config_array address_array a i →
      (∀ k, k < i → ¬ region_hit wide config_array address_array a k) →
      (pmp_check wide config_array address_array a op).verdict =
        if (config_array i).testBit (if op = 'R' then 0 else if op = 'W' then 1 else 2)
        then Verdict.Granted i else Verdict.Fault i) ∧
    ((∀ i, i < 64 → ¬ region_hit wide config_array address_array a i) →
      (pmp_check wide config_array address_array a op).verdict = Verdict.FaultUnmapped) := by
  constructor
  · intro i hi hit hfirst
    have h := loop_verdict_hit wide config_array address_array a op i MAX_LINES 0 hi
      (by simpa using hit) (by intro k _ hk; exact hfirst k (by omega))
    rw [permitted_eq_testBit _ _ hop] at h
    simpa [pmp_check] using h
  · intro hnone
    apply loop_verdict_miss
    intro k _ hk
    exact hnone k (by simpa [MAX_LINES] using hk)

/-- Witness for C1: entries 0 and 1 both cover `0x100`, entry 0 denies `R` and
entry 1 has the R bit, and the verdict is `Fault 0`; on the all-`Off` table the
verdict is `FaultUnmapped`. -/
theorem pmp_check_first_match_witness :
    region_hit x86_wide_shift overlap_config overlap_address 0x100 0 ∧
    region_hit x86_wide_shift overlap_config overlap_address 0x100 1 ∧
    (overlap_config 0).testBit 0 = false ∧ (overlap_config 1).testBit 0 = true ∧
    (pmp_check x86_wide_shift overlap_config overlap_address 0x100 'R').verdict
      = Verdict.Fault 0 ∧
    (pmp_check x86_wide_shift all_off_config all_off_address 0x8000 'R').verdict
      = Verdict.FaultUnmapped :=
  ⟨by decide, by decide, by decide, by decide,
    ((pmp_check_first_match x86_wide_shift overlap_config overlap_address 0x100 'R'
      (Or.inl rfl)).1 0 (by decide) (by decide) (by decide)).trans (by decide),
    (pmp_check_first_match x86_wide_shift all_off_config all_off_address 0x8000 'R'
      (Or.inl rfl)).2 (by decide)⟩

/-- Claim C2 (permission enforcement).  When the first enabled entry covering
the address `a` is entry `i` and its config has bit 0 (R) set and bits 1 (W) and
2 (X) clear, `pmp_check` answers `Granted i` for `R` and `Fault i` for `W` and
for `X`, all with the same index `i`. -/
theorem pmp_check_permission_enforcement (wide : Nat → Nat)
    (config_array address_array : Nat → Nat) (a i : Nat) (hi : i < 64)
    (hit : region_hit wide config_array address_array a i)
    (hfirst : ∀ k, k < i → ¬ region_hit wide config_array address_array a k)
    (hR : (config_array i).testBit 0 = true) (hW : (config_array i).testBit 1 = false)
    (hX : (config_array i).testBit 2 = false) :
    (pmp_check wide config_array address_array a 'R').verdict = Verdict.Granted i ∧
    (pmp_check wide config_array address_array a 'W').verdict = Verdict.Fault i ∧
    (pmp_check wide config_array address_array a 'X').verdict = Verdict.Fault i := by
  have h : ∀ op, (pmp_check wide config_array address_array a op).verdict =
      if permitted (config_array i) op then Verdict.Granted i else Verdict.Fault i := by
    intro op
    have h := loop_verdict_hit wide config_array address_array a op i MAX_LINES 0 hi
      (by simpa using hit) (by intro k _ hk; exact hfirst k (by omega))
    simpa [pmp_check] using h
  refine ⟨?_, ?_, ?_⟩
  · rw [h, permitted_read, hR]; rfl
  · rw [h, permitted_write, hW]; rfl
  · rw [h, permitted_execute, hX]; rfl

/-- Witness for C2 at `a = 0x8000`: entry 1 (TOR, config `0x09`, range
`[0x8000, 0x9000)`) is the first entry covering `0x8000`. -/
theorem pmp_check_permission_enforcement_witness :
    region_hit x86_wide_shift read_only_config read_only_address 0x8000 1 ∧
    (pmp_check x86_wide_shift read_only_config read_only_address 0x8000 'R').verdict
      = Verdict.Granted 1 ∧
    (pmp_check x86_wide_shift read_only_config read_only_address 0x8000 'W').verdict
      = Verdict.Fault 1 ∧
    (pmp_check x86_wide_shift read_only_config read_only_address 0x8000 'X').verdict
      = Verdict.Fault 1 :=
  ⟨by decide,
    pmp_check_permission_enforcement x86_wide_shift read_only_config read_only_address
      0x8000 1 (by decide) (by decide) (by decide) (by decide) (by decide) (by decide)⟩

/-- Claim C3 (TOR chaining).  For an entry `j` whose `A` field is 1 (TOR) the
resolved range has base 0 when `j = 0` and base `address_array (j - 1)` when
`j > 0`, and limit `address_array j`; nothing is assumed of entry `j - 1`, so
its mode (also `Off`) plays no part.  This is the range `pmp_check` prints for
entry `j` whenever the scan reaches it. -/
theorem tor_chaining (wide : Nat → Nat) (config_array address_array : Nat → Nat) (j : Nat)
    (hj : j < 64) (hmode : a_field (config_array j) = 1) :
    region_range wide config_array address_array j
      = ((if j = 0 then 0 else address_array (j - 1)), address_array j) ∧
    ∀ (a : Nat) (op : Char),
      (∀ k, k < j → ¬ region_hit wide config_array address_array a k) →
      Line.tor j (if j = 0 then 0 else address_array (j - 1)) (address_array j)
        ∈ (pmp_check wide config_array address_array a op).trace := by
  have hr : region_range wide config_array address_array j
      = ((if j = 0 then 0 else address_array (j - 1)), address_array j) := by
    simp [region_range, hmode]
  refine ⟨hr, ?_⟩
  intro a op hfirst
  have h := loop_trace_reach wide config_array address_array a op j MAX_LINES 0 hj
    (by intro k _ hk; exact hfirst k (by omega))
    (by rw [Nat.zero_add, hmode]; decide)
    (Line.tor j (if j = 0 then 0 else address_array (j - 1)) (address_array j))
    (by rw [Nat.zero_add, hmode, hr]; simp [mode_line])
  exact h

/-- Witness for C3: index 0 in TOR mode with address word `0x1000` resolves to
`[0, 0x1000)`; index 1 in TOR mode with address word `0x2000` after an `Off`
entry 0 storing `0x1000` resolves to `[0x1000, 0x2000)`. -/
theorem tor_chaining_witness :
    region_range x86_wide_shift tor_first_config tor_address 0 = (0, 0x1000) ∧
    a_field (tor_second_config 0) = 0 ∧
    region_range x86_wide_shift tor_second_config tor_address 1 = (0x1000, 0x2000) :=
  ⟨(tor_chaining x86_wide_shift tor_first_config tor_address 0 (by decide) (by decide)).1,
    by decide,
    (tor_chaining x86_wide_shift tor_second_config tor_address 1 (by decide) (by decide)).1⟩

/-- Claim C5 (all-`Off` table).  When every one of the 64 entries has `A` field 0,
whatever its other config bits and its address word, `pmp_check` answers
`FaultUnmapped` for every target address and every operation. -/
theorem pmp_check_all_off (wide : Nat → Nat) (config_array address_array : Nat → Nat)
    (a : Nat) (op : Char) (hoff : ∀ j, j < 64 → a_field (config_array j) = 0) :
    (pmp_check wide config_array address_array a op).verdict = Verdict.FaultUnmapped := by
  apply loop_verdict_miss
  intro k _ hk hit
  exact hit.1 (hoff k (by simpa [MAX_LINES] using hk))

/-- Witness for C5: all 64 config bytes are `0xE7` and all address words equal
the target address `0x8000`. -/
theorem pmp_check_all_off_witness :
    (pmp_check x86_wide_shift all_off_config all_off_address 0x8000 'R').verdict
      = Verdict.FaultUnmapped :=
  pmp_check_all_off x86_wide_shift all_off_config all_off_address 0x8000 'R' (by decide)

/-- Claim C6 (end-to-end verdict).  With entry 0 equal to
`(config = 0b00001111, address = 0x80000007)`, the request
`(address = 0x80000004, operation = W)` is answered `Granted 0`, whatever the
other 63 entries hold (in particular when they are all `Off`). -/
theorem end_to_end_verdict (wide : Nat → Nat) (config_array address_array : Nat → Nat)
    (hc : config_array 0 = 0x0F) (ha : address_array 0 = 0x80000007) :
    (pmp_check wide config_array address_array 0x80000004 'W').verdict
      = Verdict.Granted 0 := by
  have hit : region_hit wide config_array address_array 0x80000004 0 := by
    simp [region_hit, region_range, a_field, hc, ha]
  have h := loop_step_hit wide config_array address_array 0x80000004 'W' 63 0 hit
  rw [permitted_write, hc] at h
  exact h.trans (by decide)

/-- Witness for C6: the table of the scenario, entry 0 as given and the other
63 entries `Off` with address word 0. -/
theorem end_to_end_verdict_witness :
    (∀ j, 1 ≤ j → j < 64 → a_field (scenario_config j) = 0) ∧
    (pmp_check x86_wide_shift scenario_config scenario_address 0x80000004 'W').verdict
      = Verdict.Granted 0 :=
  ⟨by decide, end_to_end_verdict x86_wide_shift scenario_config scenario_address rfl rfl⟩

/-- Claim C4 (NAPOT decoding).  For a 32-bit address word whose least
significant bit is 1, with `count` its number of consecutive trailing 1 bits
(bits `0 .. count - 1` set, bit `count` clear) and `size = 2 ^ (count + 2)`, and
provided `base + size` stays inside the 32-bit range, `compute_napot_range`
returns `base = address & ~(size - 1)` and `limit = base + size`; `count` is at
least 1, and `count = 1` gives an 8-byte region. -/
theorem napot_decoding (wide : Nat → Nat) (addr count : Nat) (_haddr : addr < 2 ^ 32)
    (hlsb : addr &&& 1 = 1) (hones : ∀ k, k < count → addr.testBit k = true)
    (hzero : addr.testBit count = false)
    (hfit : (addr &&& not32 (2 ^ (count + 2) - 1)) + 2 ^ (count + 2) < 2 ^ 32) :
    1 ≤ count ∧
    compute_napot_range wide addr =
      (addr &&& not32 (2 ^ (count + 2) - 1),
        (addr &&& not32 (2 ^ (count + 2) - 1)) + 2 ^ (count + 2)) ∧
    (count = 1 →
      (compute_napot_range wide addr).2 - (compute_napot_range wide addr).1 = 8) := by
  have hpos : 1 ≤ count := by
    rcases Nat.eq_zero_or_pos count with h0 | h0
    · subst h0
      rw [Nat.testBit_zero] at hzero
      rw [Nat.and_one_is_mod] at hlsb
      simp [hlsb] at hzero
    · exact h0
  have hc : count + 2 < 32 := by
    by_contra hge
    have : (2 : Nat) ^ 32 ≤ 2 ^ (count + 2) :=
      Nat.pow_le_pow_right (by norm_num) (by omega)
    omega
  have hr := compute_napot_range_odd wide addr count hpos hc hones hzero
  rw [Nat.mod_eq_of_lt hfit] at hr
  refine ⟨hpos, hr, ?_⟩
  intro h1
  rw [hr]
  subst h1
  simp

/-- Witness for C4: the address word `0x80000007` has three trailing 1 bits, so
`size = 32`, `base = 0x80000000` and `limit = 0x80000020`. -/
theorem napot_decoding_witness :
    compute_napot_range x86_wide_shift 0x80000007 = (0x80000000, 0x80000020) :=
  ((napot_decoding x86_wide_shift 0x80000007 3 (by decide) (by decide) (by decide)
    (by decide) (by decide)).2.1).trans (by decide)

/-- Amended claim C7 (end-to-end decode).  An entry `j` with address word
`0x80000007` and config byte `0b00001111` has `A` field 1 and bits R, W, X set:
`pmp_check` resolves it in TOR mode, with base 0 for `j = 0` (else the previous
address word) and limit `0x80000007`.  With config byte `0b00011111` the `A`
field is 3 (NAPOT) and the same address word gives `count = 3`, `size = 32`,
`base = 0x80000000` and `limit = 0x80000020`.  In both cases this is the mode
line printed for entry `j` whenever the scan reaches it. -/
theorem end_to_end_decode (wide : Nat → Nat) (config_array address_array : Nat → Nat)
    (j : Nat) (hj : j < 64) (ha : address_array j = 0x80000007) :
    (config_array j = 0x0F →
      a_field (config_array j) = 1 ∧
      (config_array j).testBit 0 = true ∧ (config_array j).testBit 1 = true ∧
      (config_array j).testBit 2 = true ∧
      region_range wide config_array address_array j
        = ((if j = 0 then 0 else address_array (j - 1)), 0x80000007) ∧
      ∀ (a : Nat) (op : Char),
        (∀ k, k < j → ¬ region_hit wide config_array address_array a k) →
        Line.tor j (if j = 0 then 0 else address_array (j - 1)) 0x80000007
          ∈ (pmp_check wide config_array address_array a op).trace) ∧
    (config_array j = 0x1F →
      a_field (config_array j) = 3 ∧
      (config_array j).testBit 0 = true ∧ (config_array j).testBit 1 = true ∧
      (config_array j).testBit 2 = true ∧
      count_loop (address_array j) 0 = 3 ∧ shl_one wide (3 + 2) = 32 ∧
      region_range wide config_array address_array j = (0x80000000, 0x80000020) ∧
      ∀ (a : Nat) (op : Char),
        (∀ k, k < j → ¬ region_hit wide config_array address_array a k) →
        Line.napot j 0x80000000 0x80000020
          ∈ (pmp_check wide config_array address_array a op).trace) := by
  constructor
  · intro hc
    have hA : a_field (config_array j) = 1 := by rw [hc]; decide
    have hr : region_range wide config_array address_array j
        = ((if j = 0 then 0 else address_array (j - 1)), 0x80000007) := by
      simp [region_range, hA, ha]
    refine ⟨hA, by rw [hc]; decide, by rw [hc]; decide, by rw [hc]; decide, hr, ?_⟩
    intro a op hfirst
    exact loop_trace_reach wide config_array address_array a op j MAX_LINES 0 hj
      (by intro k _ hk; exact hfirst k (by omega))
      (by rw [Nat.zero_add, hA]; decide) _
      (by rw [Nat.zero_add, hA, hr]; simp [mode_line])
  · intro hc
    have hA : a_field (config_array j) = 3 := by rw [hc]; decide
    have hn : compute_napot_range wide 0x80000007 = (0x80000000, 0x80000020) :=
      (compute_napot_range_odd wide 0x80000007 3 (by decide) (by decide) (by decide)
        (by decide)).trans (by decide)
    have hr : region_range wide config_array address_array j
        = (0x80000000, 0x80000020) := by
      simp only [region_range, hA, ha, if_true, hn]
    refine ⟨hA, by rw [hc]; decide, by rw [hc]; decide, by rw [hc]; decide, ?_, ?_, hr, ?_⟩
    · rw [ha, count_loop_spec 3 0x80000007 0 (by decide) (by decide)]
    · simp [shl_one]
    · intro a op hfirst
      exact loop_trace_reach wide config_array address_array a op j MAX_LINES 0 hj
        (by intro k _ hk; exact hfirst k (by omega))
        (by rw [Nat.zero_add, hA]; decide) _
        (by rw [Nat.zero_add, hA, hr]; simp [mode_line])

/-- Witness for the amended C7: entry 0 of the scenario table is resolved in TOR
mode as `[0, 0x80000007)`; with config byte `0x1F` it is resolved in NAPOT mode
as `[0x80000000, 0x80000020)`. -/
theorem end_to_end_decode_witness :
    region_range x86_wide_shift scenario_config scenario_address 0 = (0, 0x80000007) ∧
    region_range x86_wide_shift napot_scenario_config scenario_address 0
      = (0x80000000, 0x80000020) :=
  ⟨((end_to_end_decode x86_wide_shift scenario_config scenario_address 0 (by decide)
      rfl).1 rfl).2.2.2.2.1,
    ((end_to_end_decode x86_wide_shift napot_scenario_config scenario_address 0 (by decide)
      rfl).2 rfl).2.2.2.2.2.2.1⟩

/-- Counterexample to C7 as stated: on the scenario table the config byte
`0b00001111` has `A` field 1, not 3; the range of entry 0 is `(0, 0x80000007)`,
not `(0x80000000, 0x80000020)`, and the lines printed for the scenario request
are the header and a TOR line. -/
theorem end_to_end_decode_counterexample :
    a_field (scenario_config 0) = 1 ∧
    region_range x86_wide_shift scenario_config scenario_address 0 = (0, 0x80000007) ∧
    region_range x86_wide_shift scenario_config scenario_address 0
      ≠ (0x80000000, 0x80000020) ∧
    (pmp_check x86_wide_shift scenario_config scenario_address 0x80000004 'W').trace
      = [Line.header 0 1 0x0F 0x80000007, Line.tor 0 0 0x80000007] := by
  decide

/-- Claim C8 (NA4 and NAPOT agree on even addresses).  For an address word `a`
with `a & 1 == 0`, `compute_napot_range a` is the pair that the NA4 branch of
`pmp_check` computes for an entry storing `a`, namely `(a, a + 4)` with the sum
taken in `uint32_t`; an entry in NAPOT mode and an entry in NA4 mode that both
store `a` resolve to the same range. -/
theorem napot_even_agrees_with_na4 (wide : Nat → Nat)
    (config_array address_array : Nat → Nat) (j a : Nat) (heven : a &&& 1 = 0)
    (hmode : a_field (config_array j) = 2) (hadr : address_array j = a) :
    compute_napot_range wide a = region_range wide config_array address_array j ∧
    compute_napot_range wide a = (a, (a + 4) % 2 ^ 32) ∧
    (a + 4 < 2 ^ 32 → compute_napot_range wide a = (a, a + 4)) ∧
    (∀ k, a_field (config_array k) = 3 → address_array k = a →
      region_range wide config_array address_array k
        = region_range wide config_array address_array j) := by
  have hn := compute_napot_range_even wide a heven
  have hj : region_range wide config_array address_array j = (a, (a + 4) % 2 ^ 32) := by
    simp [region_range, hmode, hadr]
  refine ⟨by rw [hn, hj], hn, ?_, ?_⟩
  · intro hlt
    rw [hn, Nat.mod_eq_of_lt hlt]
  · intro k hk hak
    rw [hj]
    simp only [region_range, hk, hak, if_true, hn]

/-- Witness for C8: entry 0 of the overlapping table is an NA4 entry storing
the even address word `0x100`. -/
theorem napot_even_agrees_with_na4_witness :
    compute_napot_range x86_wide_shift 0x100
      = region_range x86_wide_shift overlap_config overlap_address 0 ∧
    compute_napot_range x86_wide_shift 0x100 = (0x100, 0x104) :=
  ⟨(napot_even_agrees_with_na4 x86_wide_shift overlap_config overlap_address 0 0x100
      (by decide) (by decide) rfl).1,
    (napot_even_agrees_with_na4 x86_wide_shift overlap_config overlap_address 0 0x100
      (by decide) (by decide) rfl).2.2.1 (by decide)⟩

/-- Amended claim C9 (NAPOT minimal case).  An address word whose binary
representation ends in `01` has one trailing 1 bit: when `base + 8` stays inside
the 32-bit range, `compute_napot_range` yields an 8-byte region with
`base = address & ~7`.  An address word ending in `011` has two trailing 1 bits:
when `base + 16` stays inside the 32-bit range, it yields a 16-byte region with
`base = address & ~15`. -/
theorem napot_minimal_case (wide : Nat → Nat) (addr : Nat) (_haddr : addr < 2 ^ 32) :
    (addr % 4 = 1 → (addr &&& not32 7) + 8 < 2 ^ 32 →
      (compute_napot_range wide addr).1 = addr &&& not32 7 ∧
      (compute_napot_range wide addr).2 = (compute_napot_range wide addr).1 + 8 ∧
      (compute_napot_range wide addr).2 - (compute_napot_range wide addr).1 = 8) ∧
    (addr % 8 = 3 → (addr &&& not32 15) + 16 < 2 ^ 32 →
      (compute_napot_range wide addr).1 = addr &&& not32 15 ∧
      (compute_napot_range wide addr).2 = (compute_napot_range wide addr).1 + 16 ∧
      (compute_napot_range wide addr).2 - (compute_napot_range wide addr).1 = 16) := by
  constructor
  · intro h hfit
    obtain ⟨hones, hzero⟩ := testBit_of_mod_four addr h
    have hr := compute_napot_range_odd wide addr 1 (by decide) (by decide) hones hzero
    have e7 : (2 : Nat) ^ (1 + 2) - 1 = 7 := by norm_num
    have e8 : (2 : Nat) ^ (1 + 2) = 8 := by norm_num
    rw [e7, e8, Nat.mod_eq_of_lt hfit] at hr
    rw [hr]
    simp
  · intro h hfit
    obtain ⟨hones, hzero⟩ := testBit_of_mod_eight addr h
    have hr := compute_napot_range_odd wide addr 2 (by decide) (by decide) hones hzero
    have e15 : (2 : Nat) ^ (2 + 2) - 1 = 15 := by norm_num
    have e16 : (2 : Nat) ^ (2 + 2) = 16 := by norm_num
    rw [e15, e16, Nat.mod_eq_of_lt hfit] at hr
    rw [hr]
    simp

/-- Witness for the amended C9: `0x1005` ends in `01` and resolves to
`[0x1000, 0x1008)`; `0x100B` ends in `011` and resolves to `[0x1000, 0x1010)`. -/
theorem napot_minimal_case_witness :
    (compute_napot_range x86_wide_shift 0x1005).1 = 0x1000 ∧
    (compute_napot_range x86_wide_shift 0x1005).2 = 0x1008 ∧
    (compute_napot_range x86_wide_shift 0x100B).1 = 0x1000 ∧
    (compute_napot_range x86_wide_shift 0x100B).2 = 0x1010 :=
  have h1 := (napot_minimal_case x86_wide_shift 0x1005 (by decide)).1 (by decide) (by decide)
  have h2 := (napot_minimal_case x86_wide_shift 0x100B (by decide)).2 (by decide) (by decide)
  ⟨h1.1.trans (by decide), h1.2.1.trans (by rw [h1.1]; decide),
    h2.1.trans (by decide), h2.2.1.trans (by rw [h2.1]; decide)⟩

/-- Counterexample to C9 as stated: the address words `0x3`, `0xB` and
`0xFFFFFFF3` end in `011`; `compute_napot_range` returns `(0, 16)` for the first
two, a 16-byte region, for `0xB` the base 0 differs from `0xB & ~7 = 8`, and for
`0xFFFFFFF3` the limit wraps to 0. -/
theorem napot_minimal_case_counterexample :
    0x3 % 8 = 3 ∧ 0xB % 8 = 3 ∧ 0xFFFFFFF3 % 8 = 3 ∧
    compute_napot_range x86_wide_shift 0x3 = (0, 16) ∧
    (compute_napot_range x86_wide_shift 0x3).2 - (compute_napot_range x86_wide_shift 0x3).1
      ≠ 8 ∧
    compute_napot_range x86_wide_shift 0xB = (0, 16) ∧
    (compute_napot_range x86_wide_shift 0xB).1 ≠ 0xB &&& not32 7 ∧
    compute_napot_range x86_wide_shift 0xFFFFFFF3 = (0xFFFFFFF0, 0) := by
  have hT : compute_napot_range x86_wide_shift 0xFFFFFFF3 = (0xFFFFFFF0, 0) :=
    (compute_napot_range_odd x86_wide_shift 0xFFFFFFF3 2 (by decide) (by decide)
      (by decide) (by decide)).trans (by decide)
  have h3 : compute_napot_range x86_wide_shift 0x3 = (0, 16) :=
    (compute_napot_range_odd x86_wide_shift 0x3 2 (by decide) (by decide) (by decide)
      (by decide)).trans (by decide)
  have hB : compute_napot_range x86_wide_shift 0xB = (0, 16) :=
    (compute_napot_range_odd x86_wide_shift 0xB 2 (by decide) (by decide) (by decide)
      (by decide)).trans (by decide)
  refine ⟨by decide, by decide, by decide, h3, ?_, hB, ?_, hT⟩
  · rw [h3]; decide
  · rw [hB]; decide

/-- Amended claim C10 (NAPOT limit wraps).  `compute_napot_range` neither
saturates the limit nor reports an error.  On the even-address path it returns
`(address, (address + 4) mod 2^32)`; on the odd path, with `count` trailing 1
bits and `count + 2 < 32`, the limit is `(base + 2^(count+2)) mod 2^32`.  In both
cases `base <= limit` holds exactly when the sum stays below `2^32`. -/
theorem napot_limit_wraps (wide : Nat → Nat) (addr : Nat) (haddr : addr < 2 ^ 32) :
    (addr &&& 1 = 0 →
      compute_napot_range wide addr = (addr, (addr + 4) % 2 ^ 32) ∧
      ((compute_napot_range wide addr).1 ≤ (compute_napot_range wide addr).2
        ↔ addr + 4 < 2 ^ 32)) ∧
    (∀ count, 1 ≤ count → count + 2 < 32 →
      (∀ k, k < count → addr.testBit k = true) → addr.testBit count = false →
      (compute_napot_range wide addr).2
        = ((compute_napot_range wide addr).1 + 2 ^ (count + 2)) % 2 ^ 32 ∧
      ((compute_napot_range wide addr).1 ≤ (compute_napot_range wide addr).2
        ↔ (compute_napot_range wide addr).1 + 2 ^ (count + 2) < 2 ^ 32)) := by
  constructor
  · intro heven
    have hr := compute_napot_range_even wide addr heven
    refine ⟨hr, ?_⟩
    rw [hr]
    show addr ≤ (addr + 4) % 2 ^ 32 ↔ addr + 4 < 2 ^ 32
    omega
  · intro count hpos hc hones hzero
    have hr := compute_napot_range_odd wide addr count hpos hc hones hzero
    have hmask := and_not32_mask addr (count + 2) haddr (by omega)
    have hle := napot_base_add_size_le addr (count + 2) haddr (by omega)
    have hsz : 0 < 2 ^ (count + 2) := Nat.two_pow_pos _
    rw [hr]
    refine ⟨rfl, ?_⟩
    show addr &&& not32 (2 ^ (count + 2) - 1) ≤
        ((addr &&& not32 (2 ^ (count + 2) - 1)) + 2 ^ (count + 2)) % 2 ^ 32 ↔
      (addr &&& not32 (2 ^ (count + 2) - 1)) + 2 ^ (count + 2) < 2 ^ 32
    rw [hmask]
    have hlt : 2 ^ (count + 2) < 2 ^ 32 := Nat.pow_lt_pow_right (by norm_num) hc
    have key : ∀ B S : Nat, B + S ≤ 2 ^ 32 → 0 < S → S < 2 ^ 32 →
        (B ≤ (B + S) % 2 ^ 32 ↔ B + S < 2 ^ 32) := by
      intro B S h1 h2 h3
      omega
    exact key _ _ hle hsz hlt

/-- Witness for the amended C10: the even address word `0xFFFFFFFC` gives the
wrapped pair `(0xFFFFFFFC, 0)`; the odd address word `0x80000007` gives a limit
that does not wrap. -/
theorem napot_limit_wraps_witness :
    compute_napot_range x86_wide_shift 0xFFFFFFFC = (0xFFFFFFFC, 0) ∧
    ((compute_napot_range x86_wide_shift 0x80000007).1
        ≤ (compute_napot_range x86_wide_shift 0x80000007).2
      ↔ (compute_napot_range x86_wide_shift 0x80000007).1 + 2 ^ (3 + 2) < 2 ^ 32) :=
  ⟨((napot_limit_wraps x86_wide_shift 0xFFFFFFFC (by decide)).1 (by decide)).1,
    ((napot_limit_wraps x86_wide_shift 0x80000007 (by decide)).2 3 (by decide) (by decide)
      (by decide) (by decide)).2⟩

/-- Counterexample to C10 as stated: for the even address word `0xFFFFFFFC` the
returned limit is `(0xFFFFFFFC + 4) mod 2^32 = 0`, below the base; for the odd
address word `0xFFFFFFF7` (three trailing 1 bits, size 32) the returned pair is
`(0xFFFFFFE0, 0)`.  Neither limit is saturated at `0xFFFFFFFF`. -/
theorem napot_limit_wraps_counterexample :
    compute_napot_range x86_wide_shift 0xFFFFFFFC = (0xFFFFFFFC, 0) ∧
    ¬ ((compute_napot_range x86_wide_shift 0xFFFFFFFC).1
        ≤ (compute_napot_range x86_wide_shift 0xFFFFFFFC).2) ∧
    compute_napot_range x86_wide_shift 0xFFFFFFF7 = (0xFFFFFFE0, 0) ∧
    ¬ ((compute_napot_range x86_wide_shift 0xFFFFFFF7).1
        ≤ (compute_napot_range x86_wide_shift 0xFFFFFFF7).2) := by
  have he : compute_napot_range x86_wide_shift 0xFFFFFFFC = (0xFFFFFFFC, 0) :=
    (compute_napot_range_even x86_wide_shift 0xFFFFFFFC (by decide)).trans (by decide)
  have ho : compute_napot_range x86_wide_shift 0xFFFFFFF7 = (0xFFFFFFE0, 0) :=
    (compute_napot_range_odd x86_wide_shift 0xFFFFFFF7 3 (by decide) (by decide)
      (by decide) (by decide)).trans (by decide)
  refine ⟨he, ?_, ho, ?_⟩
  · rw [he]; decide
  · rw [ho]; decide

/-- Amended claim C11 (NA4 is a fixed 4-byte region).  In a table whose only
enabled entry is an NA4 entry `j` with address word `r`: when `r + 4 < 2^32` the
target addresses matched by the entry (verdict `Granted j` or `Fault j` rather
than `FaultUnmapped`) are exactly `r`, `r + 1`, `r + 2`, `r + 3`; when
`r + 4 ≥ 2^32` the limit `(r + 4) mod 2^32` lies below the base and no target
address is matched. -/
theorem na4_fixed_region (wide : Nat → Nat) (config_array address_array : Nat → Nat)
    (j r : Nat) (hj : j < 64) (hr32 : r < 2 ^ 32) (hmode : a_field (config_array j) = 2)
    (hadr : address_array j = r)
    (honly : ∀ k, k < 64 → k ≠ j → a_field (config_array k) = 0) (a : Nat) (op : Char) :
    (r + 4 < 2 ^ 32 →
      (((pmp_check wide config_array address_array a op).verdict = Verdict.Granted j ∨
          (pmp_check wide config_array address_array a op).verdict = Verdict.Fault j)
        ↔ (a = r ∨ a = r + 1 ∨ a = r + 2 ∨ a = r + 3)) ∧
      ((pmp_check wide config_array address_array a op).verdict = Verdict.FaultUnmapped
        ↔ ¬ (a = r ∨ a = r + 1 ∨ a = r + 2 ∨ a = r + 3))) ∧
    (2 ^ 32 ≤ r + 4 →
      (pmp_check wide config_array address_array a op).verdict = Verdict.FaultUnmapped) := by
  have hrange : region_range wide config_array address_array j = (r, (r + 4) % 2 ^ 32) := by
    simp [region_range, hmode, hadr]
  have hhit : region_hit wide config_array address_array a j ↔
      (r ≤ a ∧ a < (r + 4) % 2 ^ 32) := by
    simp [region_hit, hrange, hmode]
  obtain ⟨h1, h2⟩ := only_entry_verdict wide config_array address_array a op j hj honly
  constructor
  · intro hfit
    rw [Nat.mod_eq_of_lt hfit] at hhit
    by_cases hit : region_hit wide config_array address_array a j
    · have hin : a = r ∨ a = r + 1 ∨ a = r + 2 ∨ a = r + 3 := by
        have := hhit.1 hit
        omega
      rw [h1 hit]
      refine ⟨⟨fun _ => hin, fun _ => decided_names _ _⟩, ?_⟩
      exact ⟨fun h => absurd h (decided_ne_unmapped _ _), fun h => absurd hin h⟩
    · have hout : ¬ (a = r ∨ a = r + 1 ∨ a = r + 2 ∨ a = r + 3) := by
        intro hin
        exact hit (hhit.2 (by omega))
      rw [h2 hit]
      refine ⟨⟨fun h => ?_, fun h => absurd h hout⟩, ⟨fun _ => hout, fun _ => rfl⟩⟩
      rcases h with h | h <;> simp at h
  · intro hwrap
    apply h2
    intro hit
    have := hhit.1 hit
    omega

/-- Witness for the amended C11: with the NA4 entry 2 at `0x2000` the target
`0x2003` is matched and `0x2004` is not; with address word `0xFFFFFFFC` the
target `0xFFFFFFFC` is not matched. -/
theorem na4_fixed_region_witness :
    (pmp_check x86_wide_shift na4_only_config na4_only_address 0x2003 'R').verdict
      = Verdict.Granted 2 ∧
    (pmp_check x86_wide_shift na4_only_config na4_only_address 0x2004 'R').verdict
      = Verdict.FaultUnmapped ∧
    (pmp_check x86_wide_shift na4_only_config na4_top_address 0xFFFFFFFC 'R').verdict
      = Verdict.FaultUnmapped :=
  have h2 := (na4_fixed_region x86_wide_shift na4_only_config na4_only_address 2 0x2000
    (by decide) (by decide) (by decide) rfl (by decide) 0x2004 'R').1 (by decide)
  have h3 := (na4_fixed_region x86_wide_shift na4_only_config na4_top_address 2 0xFFFFFFFC
    (by decide) (by decide) (by decide) rfl (by decide) 0xFFFFFFFC 'R').2 (by decide)
  ⟨by decide, h2.2.2 (by decide), h3⟩

/-- Counterexample to C11 as stated: the only enabled entry is the NA4 entry 2
with address word `r = 0xFFFFFFFC`; its range is `(0xFFFFFFFC, 0)` and the
targets `r`, `r + 1`, `r + 2`, `r + 3` all get `FaultUnmapped`. -/
theorem na4_fixed_region_counterexample :
    (∀ k, k < 64 → k ≠ 2 → a_field (na4_only_config k) = 0) ∧
    a_field (na4_only_config 2) = 2 ∧
    region_range x86_wide_shift na4_only_config na4_top_address 2 = (0xFFFFFFFC, 0) ∧
    (pmp_check x86_wide_shift na4_only_config na4_top_address 0xFFFFFFFC 'R').verdict
      = Verdict.FaultUnmapped ∧
    (pmp_check x86_wide_shift na4_only_config na4_top_address 0xFFFFFFFD 'R').verdict
      = Verdict.FaultUnmapped ∧
    (pmp_check x86_wide_shift na4_only_config na4_top_address 0xFFFFFFFE 'R').verdict
      = Verdict.FaultUnmapped ∧
    (pmp_check x86_wide_shift na4_only_config na4_top_address 0xFFFFFFFF 'R').verdict
      = Verdict.FaultUnmapped := by
  decide

/-- Claim C12 (half-open matching).  In a table whose only enabled entry `j`
resolves to `(base, limit)`, the target address `limit` is not matched
(`FaultUnmapped`); when `base < limit` the targets `base` and `limit - 1` are
matched (verdict `Granted j` or `Fault j`). -/
theorem half_open_matching (wide : Nat → Nat) (config_array address_array : Nat → Nat)
    (j : Nat) (op : Char) (hj : j < 64) (hen : a_field (config_array j) ≠ 0)
    (honly : ∀ k, k < 64 → k ≠ j → a_field (config_array k) = 0) :
    (pmp_check wide config_array address_array
        (region_range wide config_array address_array j).2 op).verdict
      = Verdict.FaultUnmapped ∧
    ((region_range wide config_array address_array j).1
        < (region_range wide config_array address_array j).2 →
      ((pmp_check wide config_array address_array
            (region_range wide config_array address_array j).1 op).verdict
          = Verdict.Granted j ∨
        (pmp_check wide config_array address_array
            (region_range wide config_array address_array j).1 op).verdict
          = Verdict.Fault j) ∧
      ((pmp_check wide config_array address_array
            ((region_range wide config_array address_array j).2 - 1) op).verdict
          = Verdict.Granted j ∨
        (pmp_check wide config_array address_array
            ((region_range wide config_array address_array j).2 - 1) op).verdict
          = Verdict.Fault j)) := by
  refine ⟨?_, ?_⟩
  · apply (only_entry_verdict wide config_array address_array _ op j hj honly).2
    intro hit
    exact Nat.lt_irrefl _ hit.2.2
  · intro hlt
    constructor
    · rw [(only_entry_verdict wide config_array address_array _ op j hj honly).1
        ⟨hen, Nat.le_refl _, hlt⟩]
      exact decided_names _ _
    · rw [(only_entry_verdict wide config_array address_array _ op j hj honly).1
        ⟨hen, by omega, by omega⟩]
      exact decided_names _ _

/-- Witness for C12: the NA4 entry 2 resolves to `(0x2000, 0x2004)`; the target
`0x2004` is unmapped, the targets `0x2000` and `0x2003` are granted by entry 2. -/
theorem half_open_matching_witness :
    region_range x86_wide_shift na4_only_config na4_only_address 2 = (0x2000, 0x2004) ∧
    (pmp_check x86_wide_shift na4_only_config na4_only_address 0x2004 'W').verdict
      = Verdict.FaultUnmapped ∧
    (pmp_check x86_wide_shift na4_only_config na4_only_address 0x2000 'W').verdict
      = Verdict.Granted 2 ∧
    (pmp_check x86_wide_shift na4_only_config na4_only_address 0x2003 'W').verdict
      = Verdict.Granted 2 :=
  have h := half_open_matching x86_wide_shift na4_only_config na4_only_address 2 'W'
    (by decide) (by decide) (by decide)
  ⟨by decide, h.1, by decide, by decide⟩

/-- Claim C13 (`Off` entries are never matched).  An index whose `A` field is 0
is never named by the verdict, whatever address word and permission bits the
entry stores and whatever the request is. -/
theorem off_never_matched (wide : Nat → Nat) (config_array address_array : Nat → Nat)
    (a : Nat) (op : Char) (i : Nat) (hoff : a_field (config_array i) = 0) :
    (pmp_check wide config_array address_array a op).verdict ≠ Verdict.Granted i ∧
    (pmp_check wide config_array address_array a op).verdict ≠ Verdict.Fault i := by
  have key : ¬ ((pmp_check wide config_array address_array a op).verdict = Verdict.Granted i ∨
      (pmp_check wide config_array address_array a op).verdict = Verdict.Fault i) := by
    intro h
    exact (loop_verdict_inv wide config_array address_array a op MAX_LINES 0 i h).2.2.1.1 hoff
  exact ⟨fun h => key (Or.inl h), fun h => key (Or.inr h)⟩

/-- Witness for C13: entry 0 of the NA4 table is `Off`, stores the address word
`0x2000` and is not named for the target `0x2000`. -/
theorem off_never_matched_witness :
    na4_only_address 0 = 0x2000 ∧
    (pmp_check x86_wide_shift na4_only_config na4_only_address 0x2000 'R').verdict
      ≠ Verdict.Granted 0 ∧
    (pmp_check x86_wide_shift na4_only_config na4_only_address 0x2000 'R').verdict
      ≠ Verdict.Fault 0 :=
  ⟨rfl, off_never_matched x86_wide_shift na4_only_config na4_only_address 0x2000 'R' 0
    (by decide)⟩

/-- Claim C14 (reserved config bits are not interpreted).  Two tables with the
same address words whose config bytes agree on bits 0 to 4 (so differ at most in
bits 5 to 7) get the same verdict for every request. -/
theorem reserved_bits_ignored (wide : Nat → Nat) (config_array config_array2 : Nat → Nat)
    (address_array : Nat → Nat) (a : Nat) (op : Char)
    (h : ∀ j, j < 64 → config_array j % 32 = config_array2 j % 32) :
    (pmp_check wide config_array address_array a op).verdict
      = (pmp_check wide config_array2 address_array a op).verdict := by
  apply loop_verdict_congr
  intro k _ hk
  have hk64 : k < 64 := by simpa [MAX_LINES] using hk
  constructor
  · rw [← a_field_mod_32 (config_array k), ← a_field_mod_32 (config_array2 k), h k hk64]
  · rw [← permitted_mod_32 (config_array k), ← permitted_mod_32 (config_array2 k), h k hk64]

/-- Witness for C14: the overlapping table and the same table with bits 5 to 7
of every config byte set. -/
theorem reserved_bits_ignored_witness :
    overlap_config 0 ≠ overlap_config_reserved 0 ∧
    (pmp_check x86_wide_shift overlap_config overlap_address 0x100 'R').verdict
      = (pmp_check x86_wide_shift overlap_config_reserved overlap_address 0x100 'R').verdict :=
  ⟨by decide, reserved_bits_ignored x86_wide_shift overlap_config overlap_config_reserved
    overlap_address 0x100 'R' (by decide)⟩

/-- Claim C15 (totality).  `pmp_check` is a total function: its verdict is
`FaultUnmapped` or names one index below 64, and it prints at most 64 header
lines, one per entry examined.  The loop of `compute_napot_range` is total as
well, with `count ≤ 32` for every 32-bit address word and `count = 32` for
`0xFFFFFFFF`. -/
theorem pmp_check_total (wide : Nat → Nat) (config_array address_array : Nat → Nat)
    (a : Nat) (op : Char) :
    ((pmp_check wide config_array address_array a op).verdict = Verdict.FaultUnmapped ∨
      ∃ i, i < 64 ∧
        ((pmp_check wide config_array address_array a op).verdict = Verdict.Granted i ∨
          (pmp_check wide config_array address_array a op).verdict = Verdict.Fault i)) ∧
    (pmp_check wide config_array address_array a op).trace.countP Line.is_header ≤ 64 ∧
    (∀ addr, addr < 2 ^ 32 → count_loop addr 0 ≤ 32) ∧
    count_loop 0xFFFFFFFF 0 = 32 := by
  refine ⟨?_, loop_headers_le wide config_array address_array a op MAX_LINES 0, ?_, ?_⟩
  · rcases loop_verdict_cases wide config_array address_array a op MAX_LINES 0 with
      h | ⟨i, _, h2, h3⟩
    · left; exact h
    · right; exact ⟨i, by simpa [MAX_LINES] using h2, h3⟩
  · intro addr h
    have := count_loop_le 32 addr 0 h
    omega
  · rw [count_loop_spec 32 0xFFFFFFFF 0 (by decide) (by decide)]

/-- Witness for C15: the address word `0x80000007` is below `2^32` and its
count is at most 32. -/
theorem pmp_check_total_witness : count_loop 0x80000007 0 ≤ 32 :=
  (pmp_check_total x86_wide_shift scenario_config scenario_address 0x80000004 'W').2.2.1
    0x80000007 (by decide)

/-- Claim C17 (early exit).  When the verdict names an index `i`, every table
that agrees with the given one at the indices `0 .. i` (so with arbitrary
entries after `i`) gives the same verdict and the same printed lines, and every
printed line carries an index in `0 .. i`. -/
theorem early_exit (wide : Nat → Nat) (config_array address_array : Nat → Nat)
    (a : Nat) (op : Char) (i : Nat)
    (hv : (pmp_check wide config_array address_array a op).verdict = Verdict.Granted i ∨
      (pmp_check wide config_array address_array a op).verdict = Verdict.Fault i) :
    (∀ (config_array2 address_array2 : Nat → Nat),
      (∀ k, k ≤ i → config_array2 k = config_array k ∧ address_array2 k = address_array k) →
      pmp_check wide config_array2 address_array2 a op
        = pmp_check wide config_array address_array a op) ∧
    (∀ l, l ∈ (pmp_check wide config_array address_array a op).trace → l.index ≤ i) := by
  constructor
  · intro cfg2 adr2 hagree
    exact loop_run_congr wide config_array address_array cfg2 adr2 a op MAX_LINES 0 i hv hagree
  · intro l hl
    exact (loop_trace_index wide config_array address_array a op MAX_LINES 0 l hl).2.2 i hv

/-- Witness for C17: on the overlapping table the verdict is `Fault 0`; the table
that keeps entry 0 and has NAPOT entries with all permission bits after it gives
the same run. -/
theorem early_exit_witness :
    (pmp_check x86_wide_shift overlap_config overlap_address 0x100 'R').verdict
      = Verdict.Fault 0 ∧
    overlap_config_tail 1 ≠ overlap_config 1 ∧
    pmp_check x86_wide_shift overlap_config_tail overlap_address_tail 0x100 'R'
      = pmp_check x86_wide_shift overlap_config overlap_address 0x100 'R' :=
  ⟨by decide, by decide,
    (early_exit x86_wide_shift overlap_config overlap_address 0x100 'R' 0
      (Or.inr (by decide))).1 overlap_config_tail overlap_address_tail (by decide)⟩

/-- Claim C18 (unknown operation is never granted).  For an operation character
other than `R`, `W` and `X` the verdict is never `Granted`: it is `Fault i` at
the first enabled entry `i` whose range contains the address, and
`FaultUnmapped` when no enabled entry below 64 contains it. -/
theorem unknown_operation_never_granted (wide : Nat → Nat)
    (config_array address_array : Nat → Nat) (a : Nat) (op : Char)
    (hR : op ≠ 'R') (hW : op ≠ 'W') (hX : op ≠ 'X') :
    (∀ i, (pmp_check wide config_array address_array a op).verdict ≠ Verdict.Granted i) ∧
    (∀ i, i < 64 → region_hit wide config_array address_array a i →
      (∀ k, k < i → ¬ region_hit wide config_array address_array a k) →
      (pmp_check wide config_array address_array a op).verdict = Verdict.Fault i) ∧
    ((∀ i, i < 64 → ¬ region_hit wide config_array address_array a i) →
      (pmp_check wide config_array address_array a op).verdict = Verdict.FaultUnmapped) := by
  refine ⟨?_, ?_, ?_⟩
  · intro i hg
    have h := (loop_verdict_inv wide config_array address_array a op MAX_LINES 0 i
      (Or.inl hg)).2.2.2.2
    rw [permitted_unknown _ _ hR hW hX] at h
    have h2 : (pmp_check wide config_array address_array a op).verdict = Verdict.Fault i := h
    rw [h2] at hg
    simp at hg
  · intro i hi hit hfirst
    have h := loop_verdict_hit wide config_array address_array a op i MAX_LINES 0 hi
      (by simpa using hit) (by intro k _ hk; exact hfirst k (by omega))
    rw [permitted_unknown _ _ hR hW hX] at h
    simpa [pmp_check] using h
  · intro hnone
    apply loop_verdict_miss
    intro k _ hk
    exact hnone k (by simpa [MAX_LINES] using hk)

/-- Witness for C18: entry 0 of the scenario table has all permission bits and
covers `0x80000004`; the lowercase operation `w` gets `Fault 0`. -/
theorem unknown_operation_never_granted_witness :
    (scenario_config 0).testBit 1 = true ∧
    (pmp_check x86_wide_shift scenario_config scenario_address 0x80000004 'w').verdict
      = Verdict.Fault 0 :=
  ⟨by decide,
    (unknown_operation_never_granted x86_wide_shift scenario_config scenario_address
      0x80000004 'w' (by decide) (by decide) (by decide)).2.1 0 (by decide) (by decide)
      (by decide)⟩

/-- Claim C19 (empty TOR range).  A TOR entry `j ≥ 1` whose previous address
word is not below its own, or a TOR entry 0 with address word 0, contains no
target address: the verdict never names `j`, the scan goes on with entry
`j + 1`, and when no entry before `j` is hit the verdict is the one of the scan
of the entries after `j`. -/
theorem tor_empty_range (wide : Nat → Nat) (config_array address_array : Nat → Nat)
    (j : Nat) (a : Nat) (op : Char) (hmode : a_field (config_array j) = 1)
    (hempty : (j = 0 ∧ address_array 0 = 0) ∨
      (1 ≤ j ∧ address_array j ≤ address_array (j - 1))) :
    ¬ region_hit wide config_array address_array a j ∧
    (pmp_check wide config_array address_array a op).verdict ≠ Verdict.Granted j ∧
    (pmp_check wide config_array address_array a op).verdict ≠ Verdict.Fault j ∧
    (∀ n, (pmp_check_loop wide config_array address_array a op (n + 1) j).verdict
      = (pmp_check_loop wide config_array address_array a op n (j + 1)).verdict) ∧
    (j < 64 → (∀ k, k < j → ¬ region_hit wide config_array address_array a k) →
      (pmp_check wide config_array address_array a op).verdict
        = (pmp_check_loop wide config_array address_array a op (63 - j) (j + 1)).verdict) := by
  have hr : region_range wide config_array address_array j
      = ((if j = 0 then 0 else address_array (j - 1)), address_array j) := by
    simp [region_range, hmode]
  have hmiss : ¬ region_hit wide config_array address_array a j := by
    intro hit
    have h1 := hit.2.1
    have h2 := hit.2.2
    rw [hr] at h1 h2
    rcases hempty with ⟨h0, hz⟩ | ⟨hpos, hle⟩
    · subst h0
      simp only [hz] at h2
      omega
    · have hj0 : j ≠ 0 := by omega
      simp only [if_neg hj0] at h1
      simp only at h2
      omega
  have key : ¬ ((pmp_check wide config_array address_array a op).verdict = Verdict.Granted j ∨
      (pmp_check wide config_array address_array a op).verdict = Verdict.Fault j) := by
    intro h
    exact hmiss (loop_verdict_inv wide config_array address_array a op MAX_LINES 0 j h).2.2.1
  refine ⟨hmiss, fun h => key (Or.inl h), fun h => key (Or.inr h), ?_, ?_⟩
  · intro n
    exact loop_step_miss wide config_array address_array a op n j hmiss
  · intro hj hfirst
    have hskip := loop_verdict_skip wide config_array address_array a op (j + 1) (63 - j) 0
      (by
        intro k _ hk
        by_cases hkj : k = j
        · subst hkj; exact hmiss
        · exact hfirst k (by omega))
    have e : j + 1 + (63 - j) = MAX_LINES := by
      simp only [MAX_LINES]
      omega
    rw [e, Nat.zero_add] at hskip
    exact hskip

/-- Witness for C19: entry 1 is TOR with base `0x2000` above its limit `0x1000`;
the target `0x1800` is not matched by it and is granted by the NA4 entry 2. -/
theorem tor_empty_range_witness :
    ¬ region_hit x86_wide_shift tor_empty_config tor_empty_address 0x1800 1 ∧
    (pmp_check x86_wide_shift tor_empty_config tor_empty_address 0x1800 'X').verdict
      = Verdict.Granted 2 :=
  have h := tor_empty_range x86_wide_shift tor_empty_config tor_empty_address 1 0x1800 'X'
    (by decide) (Or.inr (by decide))
  ⟨h.1, (h.2.2.2.2 (by decide) (by decide)).trans (by decide)⟩

/-- Claim C20 (NAPOT range is aligned and contains its own encoding).  For a
32-bit address word with least significant bit 1, `count` trailing 1 bits and
`size = 2 ^ (count + 2)` such that `base + size < 2^32`, the pair returned by
`compute_napot_range` has `base` divisible by `size`, `limit - base = size` and
`base ≤ address < limit`. -/
theorem napot_aligned (wide : Nat → Nat) (addr count : Nat) (haddr : addr < 2 ^ 32)
    (hlsb : addr &&& 1 = 1) (hones : ∀ k, k < count → addr.testBit k = true)
    (hzero : addr.testBit count = false)
    (hfit : (addr &&& not32 (2 ^ (count + 2) - 1)) + 2 ^ (count + 2) < 2 ^ 32) :
    2 ^ (count + 2) ∣ (compute_napot_range wide addr).1 ∧
    (compute_napot_range wide addr).2 - (compute_napot_range wide addr).1
      = 2 ^ (count + 2) ∧
    (compute_napot_range wide addr).1 ≤ addr ∧
    addr < (compute_napot_range wide addr).2 := by
  have hpos : 1 ≤ count := by
    rcases Nat.eq_zero_or_pos count with h0 | h0
    · subst h0
      rw [Nat.testBit_zero] at hzero
      rw [Nat.and_one_is_mod] at hlsb
      simp [hlsb] at hzero
    · exact h0
  have hc : count + 2 < 32 := by
    by_contra hge
    have : (2 : Nat) ^ 32 ≤ 2 ^ (count + 2) :=
      Nat.pow_le_pow_right (by norm_num) (by omega)
    omega
  have hr := compute_napot_range_odd wide addr count hpos hc hones hzero
  rw [Nat.mod_eq_of_lt hfit] at hr
  have hmask := and_not32_mask addr (count + 2) haddr (by omega)
  have hsz : 0 < 2 ^ (count + 2) := Nat.two_pow_pos _
  rw [hr, hmask]
  refine ⟨Dvd.intro_left _ rfl, by simp, Nat.div_mul_le_self _ _, ?_⟩
  exact Nat.lt_div_mul_add hsz

/-- Witness for C20: the address word `0x80000007` (three trailing 1 bits,
size 32) resolves to `(0x80000000, 0x80000020)`. -/
theorem napot_aligned_witness :
    2 ^ (3 + 2) ∣ (compute_napot_range x86_wide_shift 0x80000007).1 ∧
    (compute_napot_range x86_wide_shift 0x80000007).2
        - (compute_napot_range x86_wide_shift 0x80000007).1 = 2 ^ (3 + 2) ∧
    (compute_napot_range x86_wide_shift 0x80000007).1 ≤ 0x80000007 ∧
    0x80000007 < (compute_napot_range x86_wide_shift 0x80000007).2 :=
  napot_aligned x86_wide_shift 0x80000007 3 (by decide) (by decide) (by decide) (by decide)
    (by decide)

end PmpChecker
